import Mathlib

/-!
Verification of the `file_state` reconciliation core of the dotter repository
(src/src/file_state.rs).

The embedding models:
  * paths (`PathBuf`) as strings ordered by the string linear order, with
    `join` inserting a single separator (sufficient for the relative paths
    the engine handles);
  * `BTreeSet<T>` with the custom `Ord` of the description types as a list
    maintained in strictly increasing comparator order by ordered insertion;
    `difference` and `intersection` are the order-preserving filters the
    Rust iterators compute;
  * the custom `PartialEq` / `PartialOrd` / `Ord` impls of
    `SymlinkDescription` / `TemplateDescription` as boolean equality and
    `Ordering`-valued comparison on the `(source, target.target)` key;
  * `TemplateDescription::apply_actions` as literal string concatenation.
-/

/-- Paths (`std::path::PathBuf`), modelled as strings with their linear order. -/
abbrev PathBuf := String

/-- `PathBuf::join` for a relative right-hand path: concatenation with one
separator. -/
def pathJoin (a b : PathBuf) : PathBuf := a ++ "/" ++ b

/-- Modelled from the spec: the external `config` crate's `Owner` type is
opaque here; it is represented by a string identity.  Nothing in the core
inspects it. -/
abbrev Owner := String

/-- `config::SymbolicTarget`: where a symlink should point and who should
own it. -/
structure SymbolicTarget where
  target : PathBuf
  owner : Option Owner
deriving DecidableEq

/-- `config::TemplateTarget`: destination, ownership, and literal text to
attach before/after rendered content. -/
structure TemplateTarget where
  target : PathBuf
  owner : Option Owner
  append : Option String
  prepend : Option String
deriving DecidableEq

/-- `SymlinkDescription`: one desired or existing symlink deployment. -/
structure SymlinkDescription where
  source : PathBuf
  target : SymbolicTarget
deriving DecidableEq

/-- `TemplateDescription`: one desired or existing template deployment,
with the cache path of its rendered output. -/
structure TemplateDescription where
  source : PathBuf
  target : TemplateTarget
  cache : PathBuf
deriving DecidableEq

/-- Comparison of two paths, as Rust's total `Ord` on `PathBuf`:
`lt`/`eq`/`gt` by the linear order on paths. -/
def pathCmp (a b : PathBuf) : Ordering :=
  if a < b then .lt else if a = b then .eq else .gt

/-- `impl PartialEq for SymlinkDescription`:
`self.source == other.source && self.target.target == other.target.target`. -/
def SymlinkDescription.eq (a b : SymlinkDescription) : Bool :=
  a.source == b.source && a.target.target == b.target.target

/-- `impl PartialOrd for SymlinkDescription` (Rust `partial_cmp`):
`Some(self.source.cmp(&other.source).then(self.target.target.cmp(&other.target.target)))`. -/
def SymlinkDescription.partCmp (a b : SymlinkDescription) : Option Ordering :=
  some ((pathCmp a.source b.source).then (pathCmp a.target.target b.target.target))

/-- `impl Ord for SymlinkDescription`: `self.partial_cmp(other).unwrap()`.
The `none` branch models the panic of `unwrap`; it is proved unreachable. -/
def SymlinkDescription.cmp (a b : SymlinkDescription) : Ordering :=
  match a.partCmp b with
  | some o => o
  | none => .eq

/-- `impl PartialEq for TemplateDescription`. -/
def TemplateDescription.eq (a b : TemplateDescription) : Bool :=
  a.source == b.source && a.target.target == b.target.target

/-- `impl PartialOrd for TemplateDescription` (Rust `partial_cmp`). -/
def TemplateDescription.partCmp (a b : TemplateDescription) : Option Ordering :=
  some ((pathCmp a.source b.source).then (pathCmp a.target.target b.target.target))

/-- `impl Ord for TemplateDescription`: `self.partial_cmp(other).unwrap()`. -/
def TemplateDescription.cmp (a b : TemplateDescription) : Ordering :=
  match a.partCmp b with
  | some o => o
  | none => .eq

/-- `TemplateDescription::apply_actions`: append `target.append` if set,
then prepend `target.prepend` if set; literal concatenation. -/
def TemplateDescription.apply_actions (d : TemplateDescription) (file : String) : String :=
  let file := match d.target.append with
    | some append => file ++ append
    | none => file
  let file := match d.target.prepend with
    | some prepend => prepend ++ file
    | none => file
  file

/-- `BTreeSet::insert` on a list kept in strictly increasing `cmp` order:
inserts `x` at its position; if an element comparing `eq` is present the
set is unchanged (the old element is kept). -/
def btreeInsert (cmp : α → α → Ordering) (x : α) : List α → List α
  | [] => [x]
  | y :: ys =>
    match cmp x y with
    | .lt => x :: y :: ys
    | .eq => y :: ys
    | .gt => y :: btreeInsert cmp x ys

/-- `BTreeSet` built from an iterator (`collect`): insert each element in
order into the empty set. -/
def btreeOfList (cmp : α → α → Ordering) (l : List α) : List α :=
  l.foldl (fun s a => btreeInsert cmp a s) []

/-- `BTreeSet::contains`-style membership by the comparator equality. -/
def btreeContains (cmp : α → α → Ordering) (x : α) (l : List α) : Bool :=
  l.any (fun y => cmp x y == .eq)

/-- `BTreeSet::difference`: the elements of `a` with no `cmp`-equal element
in `b`, in the order of `a`. -/
def btreeDifference (cmp : α → α → Ordering) (a b : List α) : List α :=
  a.filter (fun x => !(btreeContains cmp x b))

/-- `BTreeSet::intersection`: the elements of `a` with a `cmp`-equal element
in `b`, in the order of `a`. -/
def btreeIntersection (cmp : α → α → Ordering) (a b : List α) : List α :=
  a.filter (fun x => btreeContains cmp x b)

/-- `FileState`: the four ordered duplicate-free collections. -/
structure FileState where
  desired_symlinks : List SymlinkDescription
  desired_templates : List TemplateDescription
  existing_symlinks : List SymlinkDescription
  existing_templates : List TemplateDescription

/-- `FileState::symlinks_to_set`. -/
def FileState.symlinks_to_set (symlinks : List (PathBuf × SymbolicTarget)) :
    List SymlinkDescription :=
  btreeOfList SymlinkDescription.cmp
    (symlinks.map fun p => { source := p.1, target := p.2 })

/-- `FileState::templates_to_set`. -/
def FileState.templates_to_set (templates : List (PathBuf × TemplateTarget))
    (cache_dir : PathBuf) : List TemplateDescription :=
  btreeOfList TemplateDescription.cmp
    (templates.map fun p =>
      { source := p.1, target := p.2, cache := pathJoin cache_dir p.1 })

/-- `FileState::new`: existing maps carry only target paths and are lifted
with `owner = None` (and `append = prepend = None` for templates); desired
maps keep their full target descriptors. -/
def FileState.new (desired_symlinks : List (PathBuf × SymbolicTarget))
    (desired_templates : List (PathBuf × TemplateTarget))
    (existing_symlinks : List (PathBuf × PathBuf))
    (existing_templates : List (PathBuf × PathBuf))
    (cache_dir : PathBuf) : FileState where
  desired_symlinks := FileState.symlinks_to_set desired_symlinks
  desired_templates := FileState.templates_to_set desired_templates cache_dir
  existing_symlinks := FileState.symlinks_to_set
    (existing_symlinks.map fun p => (p.1, { target := p.2, owner := none }))
  existing_templates := FileState.templates_to_set
    (existing_templates.map fun p =>
      (p.1, { target := p.2, owner := none, append := none, prepend := none }))
    cache_dir

/-- `FileState::deleted_files`: existing − desired, both kinds. -/
def FileState.deleted_files (s : FileState) :
    List SymlinkDescription × List TemplateDescription :=
  (btreeDifference SymlinkDescription.cmp s.existing_symlinks s.desired_symlinks,
   btreeDifference TemplateDescription.cmp s.existing_templates s.desired_templates)

/-- `FileState::new_files`: desired − existing, both kinds. -/
def FileState.new_files (s : FileState) :
    List SymlinkDescription × List TemplateDescription :=
  (btreeDifference SymlinkDescription.cmp s.desired_symlinks s.existing_symlinks,
   btreeDifference TemplateDescription.cmp s.desired_templates s.existing_templates)

/-- `FileState::old_files`: desired ∩ existing, both kinds. -/
def FileState.old_files (s : FileState) :
    List SymlinkDescription × List TemplateDescription :=
  (btreeIntersection SymlinkDescription.cmp s.desired_symlinks s.existing_symlinks,
   btreeIntersection TemplateDescription.cmp s.desired_templates s.existing_templates)

/-! ### Comparator lemmas -/

/-- The lexicographic key comparison both description comparators compute. -/
def lexKeyCmp (s₁ t₁ s₂ t₂ : PathBuf) : Ordering :=
  (pathCmp s₁ s₂).then (pathCmp t₁ t₂)

theorem pathCmp_eq_iff {a b : PathBuf} : pathCmp a b = .eq ↔ a = b := by
  unfold pathCmp
  split
  · simp only [reduceCtorEq, false_iff]
    exact fun h => absurd h (ne_of_lt (by assumption))
  · split <;> simp_all

theorem pathCmp_lt_iff {a b : PathBuf} : pathCmp a b = .lt ↔ a < b := by
  unfold pathCmp
  split
  · simp_all
  · split <;> simp_all

theorem pathCmp_gt_iff {a b : PathBuf} : pathCmp a b = .gt ↔ b < a := by
  unfold pathCmp
  split
  · simp only [reduceCtorEq, false_iff, not_lt]
    exact le_of_lt (by assumption)
  · split
    · simp_all
    · simp only [true_iff]
      rcases lt_trichotomy a b with h | h | h
      · exact absurd h (by assumption)
      · exact absurd h (by assumption)
      · exact h

theorem lexKeyCmp_eq_iff {s₁ t₁ s₂ t₂ : PathBuf} :
    lexKeyCmp s₁ t₁ s₂ t₂ = .eq ↔ s₁ = s₂ ∧ t₁ = t₂ := by
  unfold lexKeyCmp
  cases h : pathCmp s₁ s₂ <;>
    simp only [Ordering.then, reduceCtorEq, false_iff, not_and]
  · intro hs
    exact absurd (pathCmp_eq_iff.mpr hs) (by simp [h])
  · rw [pathCmp_eq_iff] at h
    simp [h, pathCmp_eq_iff]
  · intro hs
    exact absurd (pathCmp_eq_iff.mpr hs) (by simp [h])

theorem lexKeyCmp_lt_iff {s₁ t₁ s₂ t₂ : PathBuf} :
    lexKeyCmp s₁ t₁ s₂ t₂ = .lt ↔ s₁ < s₂ ∨ (s₁ = s₂ ∧ t₁ < t₂) := by
  unfold lexKeyCmp
  cases h : pathCmp s₁ s₂ <;> simp only [Ordering.then]
  · rw [pathCmp_lt_iff] at h
    simp [h]
  · rw [pathCmp_eq_iff] at h
    subst h
    simp [pathCmp_lt_iff]
  · rw [pathCmp_gt_iff] at h
    constructor
    · intro hlt
      exact absurd hlt (by simp)
    · rintro (hs | ⟨hs, _⟩)
      · exact absurd h (not_lt_of_gt hs)
      · exact absurd h (by simp [hs])

theorem lexKeyCmp_gt_iff {s₁ t₁ s₂ t₂ : PathBuf} :
    lexKeyCmp s₁ t₁ s₂ t₂ = .gt ↔ s₂ < s₁ ∨ (s₁ = s₂ ∧ t₂ < t₁) := by
  have h3 : lexKeyCmp s₁ t₁ s₂ t₂ = .gt ↔
      ¬(lexKeyCmp s₁ t₁ s₂ t₂ = .lt) ∧ ¬(lexKeyCmp s₁ t₁ s₂ t₂ = .eq) := by
    cases lexKeyCmp s₁ t₁ s₂ t₂ <;> simp
  rw [h3, lexKeyCmp_lt_iff, lexKeyCmp_eq_iff]
  constructor
  · rintro ⟨hlt, heq⟩
    rcases lt_trichotomy s₁ s₂ with h | h | h
    · exact absurd (Or.inl h) hlt
    · subst h
      rcases lt_trichotomy t₁ t₂ with h' | h' | h'
      · exact absurd (Or.inr ⟨rfl, h'⟩) hlt
      · exact absurd ⟨rfl, h'⟩ heq
      · exact Or.inr ⟨rfl, h'⟩
    · exact Or.inl h
  · rintro (h | ⟨hs, ht⟩)
    · exact ⟨by
        rintro (h' | ⟨h', _⟩)
        · exact absurd h (not_lt_of_gt h')
        · exact absurd h (by simp [h']),
        by rintro ⟨h', _⟩; exact absurd h (by simp [h'])⟩
    · subst hs
      exact ⟨by
        rintro (h' | ⟨_, h'⟩)
        · exact lt_irrefl _ h'
        · exact absurd ht (not_lt_of_gt h'),
        by rintro ⟨_, h'⟩; exact absurd ht (by simp [h'])⟩

theorem lexKeyCmp_lt_trans {s₁ t₁ s₂ t₂ s₃ t₃ : PathBuf}
    (h₁ : lexKeyCmp s₁ t₁ s₂ t₂ = .lt) (h₂ : lexKeyCmp s₂ t₂ s₃ t₃ = .lt) :
    lexKeyCmp s₁ t₁ s₃ t₃ = .lt := by
  rw [lexKeyCmp_lt_iff] at h₁ h₂ ⊢
  rcases h₁ with h₁ | ⟨hs₁, ht₁⟩ <;> rcases h₂ with h₂ | ⟨hs₂, ht₂⟩
  · exact Or.inl (lt_trans h₁ h₂)
  · exact Or.inl (hs₂ ▸ h₁)
  · exact Or.inl (hs₁ ▸ h₂)
  · exact Or.inr ⟨hs₁.trans hs₂, lt_trans ht₁ ht₂⟩

/-! ### Description comparator facts -/

theorem symCmp_def (a b : SymlinkDescription) :
    a.cmp b = lexKeyCmp a.source a.target.target b.source b.target.target := rfl

theorem tmplCmp_def (a b : TemplateDescription) :
    a.cmp b = lexKeyCmp a.source a.target.target b.source b.target.target := rfl

theorem symEq_iff (a b : SymlinkDescription) :
    a.eq b = true ↔ a.source = b.source ∧ a.target.target = b.target.target := by
  simp [SymlinkDescription.eq]

theorem tmplEq_iff (a b : TemplateDescription) :
    a.eq b = true ↔ a.source = b.source ∧ a.target.target = b.target.target := by
  simp [TemplateDescription.eq]

theorem symCmp_eq_iff (a b : SymlinkDescription) :
    a.cmp b = .eq ↔ a.source = b.source ∧ a.target.target = b.target.target := by
  rw [symCmp_def]; exact lexKeyCmp_eq_iff

theorem tmplCmp_eq_iff (a b : TemplateDescription) :
    a.cmp b = .eq ↔ a.source = b.source ∧ a.target.target = b.target.target := by
  rw [tmplCmp_def]; exact lexKeyCmp_eq_iff

theorem symCmp_gt_iff_lt (a b : SymlinkDescription) :
    a.cmp b = .gt ↔ b.cmp a = .lt := by
  rw [symCmp_def, symCmp_def,
    lexKeyCmp_gt_iff, lexKeyCmp_lt_iff]
  constructor
  · rintro (h | ⟨h₁, h₂⟩)
    · exact Or.inl h
    · exact Or.inr ⟨h₁.symm, h₂⟩
  · rintro (h | ⟨h₁, h₂⟩)
    · exact Or.inl h
    · exact Or.inr ⟨h₁.symm, h₂⟩

theorem tmplCmp_gt_iff_lt (a b : TemplateDescription) :
    a.cmp b = .gt ↔ b.cmp a = .lt := by
  rw [tmplCmp_def, tmplCmp_def,
    lexKeyCmp_gt_iff, lexKeyCmp_lt_iff]
  constructor
  · rintro (h | ⟨h₁, h₂⟩)
    · exact Or.inl h
    · exact Or.inr ⟨h₁.symm, h₂⟩
  · rintro (h | ⟨h₁, h₂⟩)
    · exact Or.inl h
    · exact Or.inr ⟨h₁.symm, h₂⟩

theorem symCmp_lt_trans {a b c : SymlinkDescription}
    (h₁ : a.cmp b = .lt) (h₂ : b.cmp c = .lt) : a.cmp c = .lt := by
  rw [symCmp_def] at h₁ h₂ ⊢
  exact lexKeyCmp_lt_trans h₁ h₂

theorem tmplCmp_lt_trans {a b c : TemplateDescription}
    (h₁ : a.cmp b = .lt) (h₂ : b.cmp c = .lt) : a.cmp c = .lt := by
  rw [tmplCmp_def] at h₁ h₂ ⊢
  exact lexKeyCmp_lt_trans h₁ h₂

theorem symCmp_congr_left {a b : SymlinkDescription}
    (h : a.cmp b = .eq) (c : SymlinkDescription) : a.cmp c = b.cmp c := by
  rw [symCmp_eq_iff] at h
  rw [symCmp_def, symCmp_def, h.1, h.2]

theorem tmplCmp_congr_left {a b : TemplateDescription}
    (h : a.cmp b = .eq) (c : TemplateDescription) : a.cmp c = b.cmp c := by
  rw [tmplCmp_eq_iff] at h
  rw [tmplCmp_def, tmplCmp_def, h.1, h.2]

theorem symCmp_eq_symm {a b : SymlinkDescription}
    (h : a.cmp b = .eq) : b.cmp a = .eq := by
  rw [symCmp_eq_iff] at h ⊢
  exact ⟨h.1.symm, h.2.symm⟩

theorem tmplCmp_eq_symm {a b : TemplateDescription}
    (h : a.cmp b = .eq) : b.cmp a = .eq := by
  rw [tmplCmp_eq_iff] at h ⊢
  exact ⟨h.1.symm, h.2.symm⟩

/-! ### Generic ordered-set lemmas -/

section BTree

variable {α : Type} {cmp : α → α → Ordering}

theorem mem_btreeInsert {x a : α} {l : List α} (h : x ∈ btreeInsert cmp a l) :
    x = a ∨ x ∈ l := by
  induction l with
  | nil => simpa [btreeInsert] using h
  | cons y ys ih =>
    unfold btreeInsert at h
    rcases hc : cmp a y with _ | _ | _ <;> rw [hc] at h
    case lt =>
      rcases List.mem_cons.mp h with h1 | h1
      · exact Or.inl h1
      · exact Or.inr h1
    case eq => exact Or.inr h
    case gt =>
      rcases List.mem_cons.mp h with h1 | h1
      · exact Or.inr (h1 ▸ List.mem_cons_self y ys)
      · rcases ih h1 with h2 | h2
        · exact Or.inl h2
        · exact Or.inr (List.mem_cons_of_mem y h2)

theorem mem_btreeInsert_of_mem {x a : α} {l : List α} (h : x ∈ l) :
    x ∈ btreeInsert cmp a l := by
  induction l with
  | nil => cases h
  | cons y ys ih =>
    unfold btreeInsert
    rcases hc : cmp a y with _ | _ | _
    · exact List.mem_cons_of_mem a h
    · exact h
    · rcases List.mem_cons.mp h with h' | h'
      · exact h' ▸ List.mem_cons_self y _
      · exact List.mem_cons_of_mem y (ih h')

theorem self_mem_btreeInsert {a : α} {l : List α}
    (h : ∀ y ∈ l, cmp a y ≠ .eq) : a ∈ btreeInsert cmp a l := by
  induction l with
  | nil => simp [btreeInsert]
  | cons y ys ih =>
    unfold btreeInsert
    rcases hc : cmp a y with _ | _ | _
    · exact List.mem_cons_self a _
    · exact absurd hc (h y (List.mem_cons_self y ys))
    · exact List.mem_cons_of_mem y (ih fun z hz => h z (List.mem_cons_of_mem y hz))

theorem btreeInsert_pairwise_lt
    (hgt : ∀ a b : α, cmp a b = .gt ↔ cmp b a = .lt)
    (htrans : ∀ a b c : α, cmp a b = .lt → cmp b c = .lt → cmp a c = .lt)
    {x : α} {l : List α} (h : l.Pairwise (fun a b => cmp a b = .lt)) :
    (btreeInsert cmp x l).Pairwise (fun a b => cmp a b = .lt) := by
  induction l with
  | nil => simp [btreeInsert]
  | cons y ys ih =>
    rcases List.pairwise_cons.mp h with ⟨hy, hys⟩
    unfold btreeInsert
    rcases hc : cmp x y with _ | _ | _
    · exact List.pairwise_cons.mpr
        ⟨fun z hz => by
          rcases List.mem_cons.mp hz with h' | h'
          · exact h' ▸ hc
          · exact htrans x y z hc (hy z h'), h⟩
    · exact h
    · refine List.pairwise_cons.mpr ⟨fun z hz => ?_, ih hys⟩
      rcases mem_btreeInsert hz with h' | h'
      · exact h' ▸ (hgt x y).mp hc
      · exact hy z h'

theorem foldl_btreeInsert_pairwise_lt
    (hgt : ∀ a b : α, cmp a b = .gt ↔ cmp b a = .lt)
    (htrans : ∀ a b c : α, cmp a b = .lt → cmp b c = .lt → cmp a c = .lt)
    (l : List α) {acc : List α}
    (hacc : acc.Pairwise (fun a b => cmp a b = .lt)) :
    (l.foldl (fun s a => btreeInsert cmp a s) acc).Pairwise
      (fun a b => cmp a b = .lt) := by
  induction l generalizing acc with
  | nil => exact hacc
  | cons a l ih =>
    exact ih (btreeInsert_pairwise_lt hgt htrans hacc)

theorem btreeOfList_pairwise_lt
    (hgt : ∀ a b : α, cmp a b = .gt ↔ cmp b a = .lt)
    (htrans : ∀ a b c : α, cmp a b = .lt → cmp b c = .lt → cmp a c = .lt)
    (l : List α) :
    (btreeOfList cmp l).Pairwise (fun a b => cmp a b = .lt) :=
  foldl_btreeInsert_pairwise_lt hgt htrans l List.Pairwise.nil

theorem mem_foldl_btreeInsert {x : α} {l acc : List α}
    (h : x ∈ l.foldl (fun s a => btreeInsert cmp a s) acc) :
    x ∈ acc ∨ x ∈ l := by
  induction l generalizing acc with
  | nil => exact Or.inl h
  | cons a l ih =>
    rcases ih h with h' | h'
    · rcases mem_btreeInsert h' with h'' | h''
      · exact Or.inr (h'' ▸ List.mem_cons_self a l)
      · exact Or.inl h''
    · exact Or.inr (List.mem_cons_of_mem a h')

theorem mem_btreeOfList {x : α} {l : List α} (h : x ∈ btreeOfList cmp l) :
    x ∈ l := by
  rcases mem_foldl_btreeInsert h with h' | h'
  · cases h'
  · exact h'

theorem mem_foldl_btreeInsert_of_mem_acc {x : α} {l acc : List α}
    (h : x ∈ acc) : x ∈ l.foldl (fun s a => btreeInsert cmp a s) acc := by
  induction l generalizing acc with
  | nil => exact h
  | cons a l ih => exact ih (mem_btreeInsert_of_mem h)

theorem mem_foldl_btreeInsert_of_mem
    (hsym : ∀ a b : α, cmp a b = .eq → cmp b a = .eq)
    {x : α} {l acc : List α} (hx : x ∈ l)
    (hl : l.Pairwise (fun a b => cmp a b ≠ .eq))
    (hacc : ∀ y ∈ acc, cmp x y ≠ .eq) :
    x ∈ l.foldl (fun s a => btreeInsert cmp a s) acc := by
  induction l generalizing acc with
  | nil => cases hx
  | cons a l ih =>
    rcases List.pairwise_cons.mp hl with ⟨ha, hl'⟩
    rcases List.mem_cons.mp hx with h' | h'
    · subst h'
      rw [List.foldl_cons]
      exact mem_foldl_btreeInsert_of_mem_acc (self_mem_btreeInsert hacc)
    · refine ih h' hl' fun y hy => ?_
      rcases mem_btreeInsert hy with h'' | h''
      · subst h''
        exact fun hc => ha x h' (hsym x y hc)
      · exact hacc y h''

theorem mem_btreeOfList_of_mem
    (hsym : ∀ a b : α, cmp a b = .eq → cmp b a = .eq)
    {x : α} {l : List α} (hx : x ∈ l)
    (hl : l.Pairwise (fun a b => cmp a b ≠ .eq)) :
    x ∈ btreeOfList cmp l :=
  mem_foldl_btreeInsert_of_mem hsym hx hl (by simp)

theorem btreeContains_iff {x : α} {l : List α} :
    btreeContains cmp x l = true ↔ ∃ y ∈ l, cmp x y = .eq := by
  have hbeq : ∀ o : Ordering, (o == Ordering.eq) = true ↔ o = Ordering.eq :=
    fun o => by cases o <;> decide
  simp only [btreeContains, List.any_eq_true, hbeq]

theorem btreeContains_congr
    (hsubst : ∀ a b : α, cmp a b = .eq → ∀ c, cmp a c = cmp b c)
    {x y : α} (h : cmp x y = .eq) (l : List α) :
    btreeContains cmp x l = btreeContains cmp y l := by
  unfold btreeContains
  have : (fun z => cmp x z == .eq) = (fun z => cmp y z == .eq) := by
    funext z
    rw [hsubst x y h z]
  rw [this]

theorem mem_btreeDifference {x : α} {a b : List α} :
    x ∈ btreeDifference cmp a b ↔ x ∈ a ∧ btreeContains cmp x b = false := by
  simp [btreeDifference, List.mem_filter]

theorem mem_btreeIntersection {x : α} {a b : List α} :
    x ∈ btreeIntersection cmp a b ↔ x ∈ a ∧ btreeContains cmp x b = true := by
  simp [btreeIntersection, List.mem_filter]

end BTree

/-! ### Instantiated set facts -/

theorem FileState.symlinks_to_set_pairwise (l : List (PathBuf × SymbolicTarget)) :
    (FileState.symlinks_to_set l).Pairwise (fun a b => a.cmp b = .lt) :=
  btreeOfList_pairwise_lt symCmp_gt_iff_lt
    (fun _ _ _ => symCmp_lt_trans) _

theorem FileState.templates_to_set_pairwise (l : List (PathBuf × TemplateTarget))
    (c : PathBuf) :
    (FileState.templates_to_set l c).Pairwise (fun a b => a.cmp b = .lt) :=
  btreeOfList_pairwise_lt tmplCmp_gt_iff_lt
    (fun _ _ _ => tmplCmp_lt_trans) _

/-- Identity membership for symlink descriptions: some element of `l` has the
same `(source, target.target)` identity as `x`. -/
def idMemS (x : SymlinkDescription) (l : List SymlinkDescription) : Prop :=
  ∃ y ∈ l, x.source = y.source ∧ x.target.target = y.target.target

/-- Identity membership for template descriptions. -/
def idMemT (x : TemplateDescription) (l : List TemplateDescription) : Prop :=
  ∃ y ∈ l, x.source = y.source ∧ x.target.target = y.target.target

theorem idMemS_iff {x : SymlinkDescription} {l : List SymlinkDescription} :
    idMemS x l ↔ ∃ y ∈ l, x.cmp y = .eq := by
  unfold idMemS
  exact exists_congr fun y => and_congr_right fun _ =>
    (symCmp_eq_iff x y).symm

theorem idMemT_iff {x : TemplateDescription} {l : List TemplateDescription} :
    idMemT x l ↔ ∃ y ∈ l, x.cmp y = .eq := by
  unfold idMemT
  exact exists_congr fun y => and_congr_right fun _ =>
    (tmplCmp_eq_iff x y).symm

theorem idMemS_iff_contains {x : SymlinkDescription} {l : List SymlinkDescription} :
    idMemS x l ↔ btreeContains SymlinkDescription.cmp x l = true :=
  idMemS_iff.trans btreeContains_iff.symm

theorem idMemT_iff_contains {x : TemplateDescription} {l : List TemplateDescription} :
    idMemT x l ↔ btreeContains TemplateDescription.cmp x l = true :=
  idMemT_iff.trans btreeContains_iff.symm

/-- Helper for concrete witnesses: string order via character lists. -/
theorem strLt_of_toList {a b : String} (h : a.toList < b.toList) : a < b :=
  String.lt_iff_toList_lt.mpr h

/-! ### Claim theorems -/

/-- C5: `apply_actions d B` is the literal concatenation
`prepend ++ B ++ append`, a missing decoration contributing nothing: with
both set it is `prepend ++ B ++ append`, with neither the base content
unchanged, with only `append` set it is `B ++ append`. -/
theorem apply_actions_concat :
    (∀ (d : TemplateDescription) (B : String),
      d.apply_actions B = d.target.prepend.getD "" ++ B ++ d.target.append.getD "") ∧
    (∀ (s t : PathBuf) (o : Option Owner) (c : PathBuf) (B A P : String),
      (TemplateDescription.mk s (TemplateTarget.mk t o (some A) (some P)) c).apply_actions B
        = P ++ B ++ A) ∧
    (∀ (s t : PathBuf) (o : Option Owner) (c : PathBuf) (B : String),
      (TemplateDescription.mk s (TemplateTarget.mk t o none none) c).apply_actions B = B) ∧
    (∀ (s t : PathBuf) (o : Option Owner) (c : PathBuf) (B A : String),
      (TemplateDescription.mk s (TemplateTarget.mk t o (some A) none) c).apply_actions B
        = B ++ A) := by
  refine ⟨fun d B => ?_, fun s t o c B A P => ?_, fun s t o c B => ?_,
    fun s t o c B A => ?_⟩
  · obtain ⟨s, ⟨t, o, ap, pp⟩, c⟩ := d
    cases ap <;> cases pp <;>
      simp [TemplateDescription.apply_actions, String.append_assoc]
  · simp [TemplateDescription.apply_actions, String.append_assoc]
  · simp [TemplateDescription.apply_actions]
  · simp [TemplateDescription.apply_actions]

/-- C10: decorations that are present but empty (`Some("")`) leave the base
content unchanged: the empty string is the identity decoration. -/
theorem apply_actions_empty_decorations (d : TemplateDescription) (B : String)
    (ha : d.target.append = some "") (hp : d.target.prepend = some "") :
    d.apply_actions B = B := by
  simp [TemplateDescription.apply_actions, ha, hp]

/-- Witness for C10 at a concrete description and base content. -/
theorem apply_actions_empty_decorations_witness :
    (TemplateDescription.mk "file1s" (TemplateTarget.mk "file1t" none (some "") (some ""))
      "cache/file1s").apply_actions "B" = "B" :=
  apply_actions_empty_decorations _ "B" rfl rfl

/-- C4: for each description kind the comparison is the lexicographic order
on `(source, target.target)`: it agrees with the custom equality, `gt` is
the swap of `lt`, it is transitive, and `partial_cmp` always returns
`Some` (so the `unwrap` in `Ord::cmp` can never panic). -/
theorem description_ordering_total :
    (∀ a b : SymlinkDescription,
      a.partCmp b = some (a.cmp b) ∧ a.partCmp b ≠ none ∧
      (a.cmp b = .eq ↔ a.eq b = true) ∧
      (a.cmp b = .lt ↔
        (a.source < b.source ∨ (a.source = b.source ∧ a.target.target < b.target.target))) ∧
      (a.cmp b = .gt ↔ b.cmp a = .lt)) ∧
    (∀ a b c : SymlinkDescription, a.cmp b = .lt → b.cmp c = .lt → a.cmp c = .lt) ∧
    (∀ a b : TemplateDescription,
      a.partCmp b = some (a.cmp b) ∧ a.partCmp b ≠ none ∧
      (a.cmp b = .eq ↔ a.eq b = true) ∧
      (a.cmp b = .lt ↔
        (a.source < b.source ∨ (a.source = b.source ∧ a.target.target < b.target.target))) ∧
      (a.cmp b = .gt ↔ b.cmp a = .lt)) ∧
    (∀ a b c : TemplateDescription, a.cmp b = .lt → b.cmp c = .lt → a.cmp c = .lt) := by
  refine ⟨fun a b => ⟨rfl, by simp [SymlinkDescription.partCmp], ?_, ?_, ?_⟩,
    fun _ _ _ => symCmp_lt_trans,
    fun a b => ⟨rfl, by simp [TemplateDescription.partCmp], ?_, ?_, ?_⟩,
    fun _ _ _ => tmplCmp_lt_trans⟩
  · rw [symCmp_eq_iff, symEq_iff]
  · rw [symCmp_def, lexKeyCmp_lt_iff]
  · exact symCmp_gt_iff_lt a b
  · rw [tmplCmp_eq_iff, tmplEq_iff]
  · rw [tmplCmp_def, lexKeyCmp_lt_iff]
  · exact tmplCmp_gt_iff_lt a b

/-- Witness for C4: the transitivity conjuncts applied at concrete
descriptions. -/
theorem description_ordering_total_witness :
    (SymlinkDescription.mk "a" (SymbolicTarget.mk "x" none)).cmp
      (SymlinkDescription.mk "c" (SymbolicTarget.mk "z" none)) = .lt ∧
    (TemplateDescription.mk "a" (TemplateTarget.mk "x" none none none) "k").cmp
      (TemplateDescription.mk "c" (TemplateTarget.mk "z" none none none) "k") = .lt := by
  have hs₁ : (SymlinkDescription.mk "a" (SymbolicTarget.mk "x" none)).cmp
      (SymlinkDescription.mk "b" (SymbolicTarget.mk "y" none)) = .lt := by
    rw [symCmp_def]
    exact lexKeyCmp_lt_iff.mpr (Or.inl (strLt_of_toList (by decide)))
  have hs₂ : (SymlinkDescription.mk "b" (SymbolicTarget.mk "y" none)).cmp
      (SymlinkDescription.mk "c" (SymbolicTarget.mk "z" none)) = .lt := by
    rw [symCmp_def]
    exact lexKeyCmp_lt_iff.mpr (Or.inl (strLt_of_toList (by decide)))
  have ht₁ : (TemplateDescription.mk "a" (TemplateTarget.mk "x" none none none) "k").cmp
      (TemplateDescription.mk "b" (TemplateTarget.mk "y" none none none) "k") = .lt := by
    rw [tmplCmp_def]
    exact lexKeyCmp_lt_iff.mpr (Or.inl (strLt_of_toList (by decide)))
  have ht₂ : (TemplateDescription.mk "b" (TemplateTarget.mk "y" none none none) "k").cmp
      (TemplateDescription.mk "c" (TemplateTarget.mk "z" none none none) "k") = .lt := by
    rw [tmplCmp_def]
    exact lexKeyCmp_lt_iff.mpr (Or.inl (strLt_of_toList (by decide)))
  exact ⟨description_ordering_total.2.1 _ _ _ hs₁ hs₂,
    description_ordering_total.2.2.2 _ _ _ ht₁ ht₂⟩

/-! ### Classification membership helpers -/

theorem mem_deleted_symlinks {st : FileState} {x : SymlinkDescription} :
    x ∈ (st.deleted_files).1 ↔
      x ∈ st.existing_symlinks ∧ ¬ idMemS x st.desired_symlinks := by
  simp only [FileState.deleted_files, mem_btreeDifference, idMemS_iff_contains,
    Bool.not_eq_true]

theorem mem_new_symlinks {st : FileState} {x : SymlinkDescription} :
    x ∈ (st.new_files).1 ↔
      x ∈ st.desired_symlinks ∧ ¬ idMemS x st.existing_symlinks := by
  simp only [FileState.new_files, mem_btreeDifference, idMemS_iff_contains,
    Bool.not_eq_true]

theorem mem_old_symlinks {st : FileState} {x : SymlinkDescription} :
    x ∈ (st.old_files).1 ↔
      x ∈ st.desired_symlinks ∧ idMemS x st.existing_symlinks := by
  simp only [FileState.old_files, mem_btreeIntersection, idMemS_iff_contains]

theorem mem_deleted_templates {st : FileState} {x : TemplateDescription} :
    x ∈ (st.deleted_files).2 ↔
      x ∈ st.existing_templates ∧ ¬ idMemT x st.desired_templates := by
  simp only [FileState.deleted_files, mem_btreeDifference, idMemT_iff_contains,
    Bool.not_eq_true]

theorem mem_new_templates {st : FileState} {x : TemplateDescription} :
    x ∈ (st.new_files).2 ↔
      x ∈ st.desired_templates ∧ ¬ idMemT x st.existing_templates := by
  simp only [FileState.new_files, mem_btreeDifference, idMemT_iff_contains,
    Bool.not_eq_true]

theorem mem_old_templates {st : FileState} {x : TemplateDescription} :
    x ∈ (st.old_files).2 ↔
      x ∈ st.desired_templates ∧ idMemT x st.existing_templates := by
  simp only [FileState.old_files, mem_btreeIntersection, idMemT_iff_contains]

/-- C1: `deleted_files` returns exactly the existing descriptions whose
`(source, target.target)` identity is not in the desired set, `new_files`
exactly the desired ones whose identity is not in the existing set, and
`old_files` exactly those whose identity is in both — for symlinks and
templates independently. -/
theorem classification_membership :
    ∀ st : FileState,
    (∀ x : SymlinkDescription,
      (x ∈ (st.deleted_files).1 ↔
        x ∈ st.existing_symlinks ∧ ¬ idMemS x st.desired_symlinks) ∧
      (x ∈ (st.new_files).1 ↔
        x ∈ st.desired_symlinks ∧ ¬ idMemS x st.existing_symlinks) ∧
      (x ∈ (st.old_files).1 ↔
        x ∈ st.desired_symlinks ∧ idMemS x st.existing_symlinks)) ∧
    (∀ x : TemplateDescription,
      (x ∈ (st.deleted_files).2 ↔
        x ∈ st.existing_templates ∧ ¬ idMemT x st.desired_templates) ∧
      (x ∈ (st.new_files).2 ↔
        x ∈ st.desired_templates ∧ ¬ idMemT x st.existing_templates) ∧
      (x ∈ (st.old_files).2 ↔
        x ∈ st.desired_templates ∧ idMemT x st.existing_templates)) :=
  fun _ =>
    ⟨fun _ => ⟨mem_deleted_symlinks, mem_new_symlinks, mem_old_symlinks⟩,
     fun _ => ⟨mem_deleted_templates, mem_new_templates, mem_old_templates⟩⟩

/-- C3: description equality holds iff the source paths and the
`target.target` paths agree — owner, append and prepend are ignored — and
an artifact present in both sets under that identity is classified by
`old_files`, never split across `new_files` and `deleted_files`. -/
theorem identity_ignores_metadata :
    (∀ a b : SymlinkDescription,
      a.eq b = true ↔ a.source = b.source ∧ a.target.target = b.target.target) ∧
    (∀ a b : TemplateDescription,
      a.eq b = true ↔ a.source = b.source ∧ a.target.target = b.target.target) ∧
    (∀ (st : FileState) (d e : SymlinkDescription),
      d ∈ st.desired_symlinks → e ∈ st.existing_symlinks → d.eq e = true →
      d ∈ (st.old_files).1 ∧ d ∉ (st.new_files).1 ∧ e ∉ (st.deleted_files).1) ∧
    (∀ (st : FileState) (d e : TemplateDescription),
      d ∈ st.desired_templates → e ∈ st.existing_templates → d.eq e = true →
      d ∈ (st.old_files).2 ∧ d ∉ (st.new_files).2 ∧ e ∉ (st.deleted_files).2) := by
  refine ⟨symEq_iff, tmplEq_iff,
    fun st d e hd he heq => ?_, fun st d e hd he heq => ?_⟩
  · rw [symEq_iff] at heq
    have hid : idMemS d st.existing_symlinks := ⟨e, he, heq.1, heq.2⟩
    refine ⟨mem_old_symlinks.mpr ⟨hd, hid⟩, fun hn => ?_, fun hdel => ?_⟩
    · exact (mem_new_symlinks.mp hn).2 hid
    · exact (mem_deleted_symlinks.mp hdel).2 ⟨d, hd, heq.1.symm, heq.2.symm⟩
  · rw [tmplEq_iff] at heq
    have hid : idMemT d st.existing_templates := ⟨e, he, heq.1, heq.2⟩
    refine ⟨mem_old_templates.mpr ⟨hd, hid⟩, fun hn => ?_, fun hdel => ?_⟩
    · exact (mem_new_templates.mp hn).2 hid
    · exact (mem_deleted_templates.mp hdel).2 ⟨d, hd, heq.1.symm, heq.2.symm⟩

/-- Witness for C3: a desired symlink owned by alice and an unowned existing
one at the same `(source, target.target)` identity (and likewise a template
with decorations against one without) land in `old_files` and nowhere else. -/
theorem identity_ignores_metadata_witness :
    (SymlinkDescription.mk "s" (SymbolicTarget.mk "t" (some "alice"))) ∈
      ((FileState.mk
        [SymlinkDescription.mk "s" (SymbolicTarget.mk "t" (some "alice"))]
        [TemplateDescription.mk "u" (TemplateTarget.mk "v" (some "alice") (some "A") (some "P")) "k"]
        [SymlinkDescription.mk "s" (SymbolicTarget.mk "t" none)]
        [TemplateDescription.mk "u" (TemplateTarget.mk "v" none none none) "k"]).old_files).1 ∧
    (TemplateDescription.mk "u" (TemplateTarget.mk "v" (some "alice") (some "A") (some "P")) "k") ∈
      ((FileState.mk
        [SymlinkDescription.mk "s" (SymbolicTarget.mk "t" (some "alice"))]
        [TemplateDescription.mk "u" (TemplateTarget.mk "v" (some "alice") (some "A") (some "P")) "k"]
        [SymlinkDescription.mk "s" (SymbolicTarget.mk "t" none)]
        [TemplateDescription.mk "u" (TemplateTarget.mk "v" none none none) "k"]).old_files).2 := by
  constructor
  · exact ((identity_ignores_metadata.2.2.1 _ _ _
      (List.mem_singleton.mpr rfl) (List.mem_singleton.mpr rfl) (by decide)).1)
  · exact ((identity_ignores_metadata.2.2.2 _ _ _
      (List.mem_singleton.mpr rfl) (List.mem_singleton.mpr rfl) (by decide)).1)

/-! ### Construction provenance helpers -/

theorem mem_symlinks_to_set {d : SymlinkDescription}
    {l : List (PathBuf × SymbolicTarget)} (h : d ∈ FileState.symlinks_to_set l) :
    ∃ p ∈ l, d = SymlinkDescription.mk p.1 p.2 := by
  rcases List.mem_map.mp (mem_btreeOfList h) with ⟨p, hp, hd⟩
  exact ⟨p, hp, hd.symm⟩

theorem mem_templates_to_set {d : TemplateDescription}
    {l : List (PathBuf × TemplateTarget)} {c : PathBuf}
    (h : d ∈ FileState.templates_to_set l c) :
    ∃ p ∈ l, d = TemplateDescription.mk p.1 p.2 (pathJoin c p.1) := by
  rcases List.mem_map.mp (mem_btreeOfList h) with ⟨p, hp, hd⟩
  exact ⟨p, hp, hd.symm⟩

/-- C6: every template description constructed by `FileState::new` (desired
or existing) stores its rendered output at `cache_dir.join(source)`; in
particular cache root `"cache"` and source `"file1s"` give cache
`"cache/file1s"`. -/
theorem template_cache_derivation :
    (∀ (ds : List (PathBuf × SymbolicTarget)) (dt : List (PathBuf × TemplateTarget))
       (es et : List (PathBuf × PathBuf)) (c : PathBuf),
      ∀ d ∈ (FileState.new ds dt es et c).desired_templates,
        d.cache = pathJoin c d.source) ∧
    (∀ (ds : List (PathBuf × SymbolicTarget)) (dt : List (PathBuf × TemplateTarget))
       (es et : List (PathBuf × PathBuf)) (c : PathBuf),
      ∀ d ∈ (FileState.new ds dt es et c).existing_templates,
        d.cache = pathJoin c d.source) ∧
    (FileState.new [] [("file1s", TemplateTarget.mk "file1t" none none none)] [] []
        "cache").desired_templates
      = [TemplateDescription.mk "file1s" (TemplateTarget.mk "file1t" none none none)
          "cache/file1s"] := by
  refine ⟨fun ds dt es et c d hd => ?_, fun ds dt es et c d hd => ?_, ?_⟩
  · rcases mem_templates_to_set hd with ⟨p, _, rfl⟩
    rfl
  · rcases mem_templates_to_set hd with ⟨p, _, rfl⟩
    rfl
  · decide

/-- Witness for C6: the concrete cache path of the constructed description. -/
theorem template_cache_derivation_witness :
    (TemplateDescription.mk "file1s" (TemplateTarget.mk "file1t" none none none)
      "cache/file1s").cache = pathJoin "cache" "file1s" :=
  template_cache_derivation.1 [] [("file1s", TemplateTarget.mk "file1t" none none none)]
    [] [] "cache" _ (by decide)

/-- C7: descriptions lifted from existing-state maps carry `owner = None`
(and `append = prepend = None` for templates), while desired descriptions
keep the full target descriptor of their input entry. -/
theorem existing_lifted_desired_full :
    (∀ (ds : List (PathBuf × SymbolicTarget)) (dt : List (PathBuf × TemplateTarget))
       (es et : List (PathBuf × PathBuf)) (c : PathBuf),
      ∀ d ∈ (FileState.new ds dt es et c).existing_symlinks,
        d.target.owner = none) ∧
    (∀ (ds : List (PathBuf × SymbolicTarget)) (dt : List (PathBuf × TemplateTarget))
       (es et : List (PathBuf × PathBuf)) (c : PathBuf),
      ∀ d ∈ (FileState.new ds dt es et c).existing_templates,
        d.target.owner = none ∧ d.target.append = none ∧ d.target.prepend = none) ∧
    (∀ (ds : List (PathBuf × SymbolicTarget)) (dt : List (PathBuf × TemplateTarget))
       (es et : List (PathBuf × PathBuf)) (c : PathBuf),
      ∀ d ∈ (FileState.new ds dt es et c).desired_symlinks,
        ∃ p ∈ ds, d.source = p.1 ∧ d.target = p.2) ∧
    (∀ (ds : List (PathBuf × SymbolicTarget)) (dt : List (PathBuf × TemplateTarget))
       (es et : List (PathBuf × PathBuf)) (c : PathBuf),
      ∀ d ∈ (FileState.new ds dt es et c).desired_templates,
        ∃ p ∈ dt, d.source = p.1 ∧ d.target = p.2) := by
  refine ⟨fun ds dt es et c d hd => ?_, fun ds dt es et c d hd => ?_,
    fun ds dt es et c d hd => ?_, fun ds dt es et c d hd => ?_⟩
  · rcases mem_symlinks_to_set hd with ⟨p, hp, rfl⟩
    rcases List.mem_map.mp hp with ⟨q, _, rfl⟩
    rfl
  · rcases mem_templates_to_set hd with ⟨p, hp, rfl⟩
    rcases List.mem_map.mp hp with ⟨q, _, rfl⟩
    exact ⟨rfl, rfl, rfl⟩
  · rcases mem_symlinks_to_set hd with ⟨p, hp, rfl⟩
    exact ⟨p, hp, rfl, rfl⟩
  · rcases mem_templates_to_set hd with ⟨p, hp, rfl⟩
    exact ⟨p, hp, rfl, rfl⟩

/-- Witness for C7: a concrete existing symlink entry is lifted with no
owner. -/
theorem existing_lifted_desired_full_witness :
    (SymlinkDescription.mk "s" (SymbolicTarget.mk "t" none)).target.owner = none :=
  existing_lifted_desired_full.1 [] [] [("s", "t")] [] "cache" _ (by decide)

/-! ### Sortedness of classification results -/

theorem symEq_false_of_cmp_lt {a b : SymlinkDescription}
    (h : a.cmp b = .lt) : a.eq b = false := by
  cases heq : a.eq b
  · rfl
  · rw [symEq_iff] at heq
    rw [(symCmp_eq_iff a b).mpr heq] at h
    cases h

theorem tmplEq_false_of_cmp_lt {a b : TemplateDescription}
    (h : a.cmp b = .lt) : a.eq b = false := by
  cases heq : a.eq b
  · rfl
  · rw [tmplEq_iff] at heq
    rw [(tmplCmp_eq_iff a b).mpr heq] at h
    cases h

theorem deleted_symlinks_pairwise (ds : List (PathBuf × SymbolicTarget))
    (dt : List (PathBuf × TemplateTarget)) (es et : List (PathBuf × PathBuf))
    (c : PathBuf) :
    (((FileState.new ds dt es et c).deleted_files).1.Pairwise
      fun a b => a.cmp b = .lt) :=
  (FileState.symlinks_to_set_pairwise _).sublist (List.filter_sublist _)

theorem new_symlinks_pairwise (ds : List (PathBuf × SymbolicTarget))
    (dt : List (PathBuf × TemplateTarget)) (es et : List (PathBuf × PathBuf))
    (c : PathBuf) :
    (((FileState.new ds dt es et c).new_files).1.Pairwise
      fun a b => a.cmp b = .lt) :=
  (FileState.symlinks_to_set_pairwise _).sublist (List.filter_sublist _)

theorem old_symlinks_pairwise (ds : List (PathBuf × SymbolicTarget))
    (dt : List (PathBuf × TemplateTarget)) (es et : List (PathBuf × PathBuf))
    (c : PathBuf) :
    (((FileState.new ds dt es et c).old_files).1.Pairwise
      fun a b => a.cmp b = .lt) :=
  (FileState.symlinks_to_set_pairwise _).sublist (List.filter_sublist _)

theorem deleted_templates_pairwise (ds : List (PathBuf × SymbolicTarget))
    (dt : List (PathBuf × TemplateTarget)) (es et : List (PathBuf × PathBuf))
    (c : PathBuf) :
    (((FileState.new ds dt es et c).deleted_files).2.Pairwise
      fun a b => a.cmp b = .lt) :=
  (FileState.templates_to_set_pairwise _ _).sublist (List.filter_sublist _)

theorem new_templates_pairwise (ds : List (PathBuf × SymbolicTarget))
    (dt : List (PathBuf × TemplateTarget)) (es et : List (PathBuf × PathBuf))
    (c : PathBuf) :
    (((FileState.new ds dt es et c).new_files).2.Pairwise
      fun a b => a.cmp b = .lt) :=
  (FileState.templates_to_set_pairwise _ _).sublist (List.filter_sublist _)

theorem old_templates_pairwise (ds : List (PathBuf × SymbolicTarget))
    (dt : List (PathBuf × TemplateTarget)) (es et : List (PathBuf × PathBuf))
    (c : PathBuf) :
    (((FileState.new ds dt es et c).old_files).2.Pairwise
      fun a b => a.cmp b = .lt) :=
  (FileState.templates_to_set_pairwise _ _).sublist (List.filter_sublist _)

/-- C8: every sequence returned by `deleted_files`, `new_files` and
`old_files` on a constructed `FileState` is strictly increasing under the
lexicographic `(source, target.target)` comparison, hence free of duplicate
identities. -/
theorem results_strictly_increasing (ds : List (PathBuf × SymbolicTarget))
    (dt : List (PathBuf × TemplateTarget)) (es et : List (PathBuf × PathBuf))
    (c : PathBuf) :
    (((FileState.new ds dt es et c).deleted_files).1.Pairwise
      fun a b => a.cmp b = .lt ∧ a.eq b = false) ∧
    (((FileState.new ds dt es et c).new_files).1.Pairwise
      fun a b => a.cmp b = .lt ∧ a.eq b = false) ∧
    (((FileState.new ds dt es et c).old_files).1.Pairwise
      fun a b => a.cmp b = .lt ∧ a.eq b = false) ∧
    (((FileState.new ds dt es et c).deleted_files).2.Pairwise
      fun a b => a.cmp b = .lt ∧ a.eq b = false) ∧
    (((FileState.new ds dt es et c).new_files).2.Pairwise
      fun a b => a.cmp b = .lt ∧ a.eq b = false) ∧
    (((FileState.new ds dt es et c).old_files).2.Pairwise
      fun a b => a.cmp b = .lt ∧ a.eq b = false) :=
  ⟨(deleted_symlinks_pairwise ds dt es et c).imp
      fun h => ⟨h, symEq_false_of_cmp_lt h⟩,
   (new_symlinks_pairwise ds dt es et c).imp
      fun h => ⟨h, symEq_false_of_cmp_lt h⟩,
   (old_symlinks_pairwise ds dt es et c).imp
      fun h => ⟨h, symEq_false_of_cmp_lt h⟩,
   (deleted_templates_pairwise ds dt es et c).imp
      fun h => ⟨h, tmplEq_false_of_cmp_lt h⟩,
   (new_templates_pairwise ds dt es et c).imp
      fun h => ⟨h, tmplEq_false_of_cmp_lt h⟩,
   (old_templates_pairwise ds dt es et c).imp
      fun h => ⟨h, tmplEq_false_of_cmp_lt h⟩⟩

/-! ### Identity-level characterizations -/

theorem idMemS_deleted_iff {st : FileState} {x : SymlinkDescription} :
    idMemS x (st.deleted_files).1 ↔
      idMemS x st.existing_symlinks ∧ ¬ idMemS x st.desired_symlinks := by
  constructor
  · rintro ⟨y, hy, h1, h2⟩
    rcases mem_deleted_symlinks.mp hy with ⟨hyE, hyD⟩
    refine ⟨⟨y, hyE, h1, h2⟩, ?_⟩
    rintro ⟨z, hz, g1, g2⟩
    exact hyD ⟨z, hz, by rw [← h1]; exact g1, by rw [← h2]; exact g2⟩
  · rintro ⟨⟨y, hyE, h1, h2⟩, hnd⟩
    refine ⟨y, mem_deleted_symlinks.mpr ⟨hyE, ?_⟩, h1, h2⟩
    rintro ⟨z, hz, g1, g2⟩
    exact hnd ⟨z, hz, h1.trans g1, h2.trans g2⟩

theorem idMemS_new_iff {st : FileState} {x : SymlinkDescription} :
    idMemS x (st.new_files).1 ↔
      idMemS x st.desired_symlinks ∧ ¬ idMemS x st.existing_symlinks := by
  constructor
  · rintro ⟨y, hy, h1, h2⟩
    rcases mem_new_symlinks.mp hy with ⟨hyD, hyE⟩
    refine ⟨⟨y, hyD, h1, h2⟩, ?_⟩
    rintro ⟨z, hz, g1, g2⟩
    exact hyE ⟨z, hz, by rw [← h1]; exact g1, by rw [← h2]; exact g2⟩
  · rintro ⟨⟨y, hyD, h1, h2⟩, hne⟩
    refine ⟨y, mem_new_symlinks.mpr ⟨hyD, ?_⟩, h1, h2⟩
    rintro ⟨z, hz, g1, g2⟩
    exact hne ⟨z, hz, h1.trans g1, h2.trans g2⟩

theorem idMemS_old_iff {st : FileState} {x : SymlinkDescription} :
    idMemS x (st.old_files).1 ↔
      idMemS x st.desired_symlinks ∧ idMemS x st.existing_symlinks := by
  constructor
  · rintro ⟨y, hy, h1, h2⟩
    rcases mem_old_symlinks.mp hy with ⟨hyD, ⟨z, hz, g1, g2⟩⟩
    exact ⟨⟨y, hyD, h1, h2⟩, ⟨z, hz, h1.trans g1, h2.trans g2⟩⟩
  · rintro ⟨⟨y, hyD, h1, h2⟩, ⟨z, hz, g1, g2⟩⟩
    exact ⟨y, mem_old_symlinks.mpr
      ⟨hyD, ⟨z, hz, by rw [← h1]; exact g1, by rw [← h2]; exact g2⟩⟩, h1, h2⟩

theorem idMemT_deleted_iff {st : FileState} {x : TemplateDescription} :
    idMemT x (st.deleted_files).2 ↔
      idMemT x st.existing_templates ∧ ¬ idMemT x st.desired_templates := by
  constructor
  · rintro ⟨y, hy, h1, h2⟩
    rcases mem_deleted_templates.mp hy with ⟨hyE, hyD⟩
    refine ⟨⟨y, hyE, h1, h2⟩, ?_⟩
    rintro ⟨z, hz, g1, g2⟩
    exact hyD ⟨z, hz, by rw [← h1]; exact g1, by rw [← h2]; exact g2⟩
  · rintro ⟨⟨y, hyE, h1, h2⟩, hnd⟩
    refine ⟨y, mem_deleted_templates.mpr ⟨hyE, ?_⟩, h1, h2⟩
    rintro ⟨z, hz, g1, g2⟩
    exact hnd ⟨z, hz, h1.trans g1, h2.trans g2⟩

theorem idMemT_new_iff {st : FileState} {x : TemplateDescription} :
    idMemT x (st.new_files).2 ↔
      idMemT x st.desired_templates ∧ ¬ idMemT x st.existing_templates := by
  constructor
  · rintro ⟨y, hy, h1, h2⟩
    rcases mem_new_templates.mp hy with ⟨hyD, hyE⟩
    refine ⟨⟨y, hyD, h1, h2⟩, ?_⟩
    rintro ⟨z, hz, g1, g2⟩
    exact hyE ⟨z, hz, by rw [← h1]; exact g1, by rw [← h2]; exact g2⟩
  · rintro ⟨⟨y, hyD, h1, h2⟩, hne⟩
    refine ⟨y, mem_new_templates.mpr ⟨hyD, ?_⟩, h1, h2⟩
    rintro ⟨z, hz, g1, g2⟩
    exact hne ⟨z, hz, h1.trans g1, h2.trans g2⟩

theorem idMemT_old_iff {st : FileState} {x : TemplateDescription} :
    idMemT x (st.old_files).2 ↔
      idMemT x st.desired_templates ∧ idMemT x st.existing_templates := by
  constructor
  · rintro ⟨y, hy, h1, h2⟩
    rcases mem_old_templates.mp hy with ⟨hyD, ⟨z, hz, g1, g2⟩⟩
    exact ⟨⟨y, hyD, h1, h2⟩, ⟨z, hz, h1.trans g1, h2.trans g2⟩⟩
  · rintro ⟨⟨y, hyD, h1, h2⟩, ⟨z, hz, g1, g2⟩⟩
    exact ⟨y, mem_old_templates.mpr
      ⟨hyD, ⟨z, hz, by rw [← h1]; exact g1, by rw [← h2]; exact g2⟩⟩, h1, h2⟩

/-- C2: by identity, the three classification results of a constructed
`FileState` cover exactly the union of the existing and desired sets, no
identity falls into more than one result, and no result repeats an
identity — for symlinks and templates independently. -/
theorem classification_partition (ds : List (PathBuf × SymbolicTarget))
    (dt : List (PathBuf × TemplateTarget)) (es et : List (PathBuf × PathBuf))
    (c : PathBuf) :
    (∀ x : SymlinkDescription,
      ((idMemS x (((FileState.new ds dt es et c).deleted_files)).1 ∨
        idMemS x (((FileState.new ds dt es et c).new_files)).1 ∨
        idMemS x (((FileState.new ds dt es et c).old_files)).1) ↔
       (idMemS x (FileState.new ds dt es et c).existing_symlinks ∨
        idMemS x (FileState.new ds dt es et c).desired_symlinks)) ∧
      ¬(idMemS x (((FileState.new ds dt es et c).deleted_files)).1 ∧
        idMemS x (((FileState.new ds dt es et c).new_files)).1) ∧
      ¬(idMemS x (((FileState.new ds dt es et c).deleted_files)).1 ∧
        idMemS x (((FileState.new ds dt es et c).old_files)).1) ∧
      ¬(idMemS x (((FileState.new ds dt es et c).new_files)).1 ∧
        idMemS x (((FileState.new ds dt es et c).old_files)).1)) ∧
    (∀ x : TemplateDescription,
      ((idMemT x (((FileState.new ds dt es et c).deleted_files)).2 ∨
        idMemT x (((FileState.new ds dt es et c).new_files)).2 ∨
        idMemT x (((FileState.new ds dt es et c).old_files)).2) ↔
       (idMemT x (FileState.new ds dt es et c).existing_templates ∨
        idMemT x (FileState.new ds dt es et c).desired_templates)) ∧
      ¬(idMemT x (((FileState.new ds dt es et c).deleted_files)).2 ∧
        idMemT x (((FileState.new ds dt es et c).new_files)).2) ∧
      ¬(idMemT x (((FileState.new ds dt es et c).deleted_files)).2 ∧
        idMemT x (((FileState.new ds dt es et c).old_files)).2) ∧
      ¬(idMemT x (((FileState.new ds dt es et c).new_files)).2 ∧
        idMemT x (((FileState.new ds dt es et c).old_files)).2)) ∧
    (((FileState.new ds dt es et c).deleted_files).1.Pairwise
      fun a b => a.eq b = false) ∧
    (((FileState.new ds dt es et c).new_files).1.Pairwise
      fun a b => a.eq b = false) ∧
    (((FileState.new ds dt es et c).old_files).1.Pairwise
      fun a b => a.eq b = false) ∧
    (((FileState.new ds dt es et c).deleted_files).2.Pairwise
      fun a b => a.eq b = false) ∧
    (((FileState.new ds dt es et c).new_files).2.Pairwise
      fun a b => a.eq b = false) ∧
    (((FileState.new ds dt es et c).old_files).2.Pairwise
      fun a b => a.eq b = false) := by
  refine ⟨fun x => ?_, fun x => ?_,
    (deleted_symlinks_pairwise ds dt es et c).imp
      symEq_false_of_cmp_lt,
    (new_symlinks_pairwise ds dt es et c).imp
      symEq_false_of_cmp_lt,
    (old_symlinks_pairwise ds dt es et c).imp
      symEq_false_of_cmp_lt,
    (deleted_templates_pairwise ds dt es et c).imp
      tmplEq_false_of_cmp_lt,
    (new_templates_pairwise ds dt es et c).imp
      tmplEq_false_of_cmp_lt,
    (old_templates_pairwise ds dt es et c).imp
      tmplEq_false_of_cmp_lt⟩
  · rw [idMemS_deleted_iff, idMemS_new_iff, idMemS_old_iff]
    tauto
  · rw [idMemT_deleted_iff, idMemT_new_iff, idMemT_old_iff]
    tauto

/-- Witness for C2: disjointness of deleted and new at a concrete state and
identity. -/
theorem classification_partition_witness :
    ¬(idMemS (SymlinkDescription.mk "s" (SymbolicTarget.mk "t" none))
        (((FileState.new [] [] [] [] "c").deleted_files)).1 ∧
      idMemS (SymlinkDescription.mk "s" (SymbolicTarget.mk "t" none))
        (((FileState.new [] [] [] [] "c").new_files)).1) :=
  ((classification_partition [] [] [] [] "c").1 _).2.1

/-- Witness for C1: the characterization instantiated at a concrete state
and description. -/
theorem classification_membership_witness :
    (SymlinkDescription.mk "s" (SymbolicTarget.mk "t" none)) ∈
        ((FileState.new [] [] [("s", "t")] [] "c").deleted_files).1 ↔
      (SymlinkDescription.mk "s" (SymbolicTarget.mk "t" none)) ∈
        (FileState.new [] [] [("s", "t")] [] "c").existing_symlinks ∧
      ¬ idMemS (SymlinkDescription.mk "s" (SymbolicTarget.mk "t" none))
        (FileState.new [] [] [("s", "t")] [] "c").desired_symlinks :=
  ((classification_membership (FileState.new [] [] [("s", "t")] [] "c")).1 _).1

/-! ### Map-key uniqueness helpers -/

theorem pairwise_key_unique {β : Type} {l : List (PathBuf × β)}
    (h : l.Pairwise (fun a b => a.1 ≠ b.1)) {p q : PathBuf × β}
    (hp : p ∈ l) (hq : q ∈ l) (hk : p.1 = q.1) : p = q := by
  induction l with
  | nil => cases hp
  | cons a l ih =>
    rcases List.pairwise_cons.mp h with ⟨ha, hl⟩
    rcases List.mem_cons.mp hp with hp' | hp' <;> rcases List.mem_cons.mp hq with hq' | hq'
    · exact hp'.trans hq'.symm
    · subst hp'
      exact absurd hk (ha q hq')
    · subst hq'
      exact absurd hk.symm (ha p hp')
    · exact ih hl hp' hq'

theorem symlink_entries_pairwise_ne {l : List (PathBuf × SymbolicTarget)}
    (h : l.Pairwise (fun a b => a.1 ≠ b.1)) :
    (l.map fun p => SymlinkDescription.mk p.1 p.2).Pairwise
      (fun a b => a.cmp b ≠ .eq) := by
  rw [List.pairwise_map]
  refine h.imp fun hab hc => ?_
  rw [symCmp_eq_iff] at hc
  exact hab hc.1

theorem mem_symlinks_to_set_of_entry {l : List (PathBuf × SymbolicTarget)}
    (hk : l.Pairwise (fun a b => a.1 ≠ b.1)) {p : PathBuf × SymbolicTarget}
    (hp : p ∈ l) :
    SymlinkDescription.mk p.1 p.2 ∈ FileState.symlinks_to_set l :=
  mem_btreeOfList_of_mem (fun _ _ => symCmp_eq_symm)
    (List.mem_map_of_mem _ hp) (symlink_entries_pairwise_ne hk)

/-- C9: a source present in existing with target `t1` and in desired with a
different target is classified as one delete of the old identity and one
create of the new identity, and neither identity is in `old_files` — never
an in-place move. -/
theorem target_change_is_delete_create
    (ds : List (PathBuf × SymbolicTarget)) (dt : List (PathBuf × TemplateTarget))
    (es et : List (PathBuf × PathBuf)) (c : PathBuf)
    (s t1 : PathBuf) (T2 : SymbolicTarget)
    (hds : (s, T2) ∈ ds) (hes : (s, t1) ∈ es) (hne : t1 ≠ T2.target)
    (hdk : ds.Pairwise (fun a b => a.1 ≠ b.1))
    (hek : es.Pairwise (fun a b => a.1 ≠ b.1)) :
    SymlinkDescription.mk s (SymbolicTarget.mk t1 none) ∈
      ((FileState.new ds dt es et c).deleted_files).1 ∧
    SymlinkDescription.mk s T2 ∈ ((FileState.new ds dt es et c).new_files).1 ∧
    (∀ d ∈ ((FileState.new ds dt es et c).old_files).1,
      ¬(d.source = s ∧ d.target.target = t1) ∧
      ¬(d.source = s ∧ d.target.target = T2.target)) := by
  have hekm : (es.map fun p => (p.1,
      SymbolicTarget.mk p.2 none)).Pairwise (fun a b => a.1 ≠ b.1) := by
    rw [List.pairwise_map]
    exact hek.imp fun hab => hab
  have he_mem : SymlinkDescription.mk s (SymbolicTarget.mk t1 none) ∈
      (FileState.new ds dt es et c).existing_symlinks :=
    mem_symlinks_to_set_of_entry hekm
      (List.mem_map_of_mem (fun p => (p.1, SymbolicTarget.mk p.2 none)) hes)
  have hd_mem : SymlinkDescription.mk s T2 ∈
      (FileState.new ds dt es et c).desired_symlinks :=
    mem_symlinks_to_set_of_entry hdk hds
  have desired_tt : ∀ y ∈ (FileState.new ds dt es et c).desired_symlinks,
      y.source = s → y.target.target = T2.target := by
    intro y hy hsy
    rcases mem_symlinks_to_set hy with ⟨p, hp, rfl⟩
    have : p = (s, T2) := pairwise_key_unique hdk hp hds hsy
    rw [this]
  have existing_tt : ∀ y ∈ (FileState.new ds dt es et c).existing_symlinks,
      y.source = s → y.target.target = t1 := by
    intro y hy hsy
    rcases mem_symlinks_to_set hy with ⟨p, hp, rfl⟩
    rcases List.mem_map.mp hp with ⟨q, hq, rfl⟩
    have : q = (s, t1) := pairwise_key_unique hek hq hes hsy
    rw [this]
  refine ⟨?_, ?_, ?_⟩
  · refine mem_deleted_symlinks.mpr ⟨he_mem, ?_⟩
    rintro ⟨y, hy, h1, h2⟩
    exact hne (h2.trans (desired_tt y hy h1.symm))
  · refine mem_new_symlinks.mpr ⟨hd_mem, ?_⟩
    rintro ⟨y, hy, h1, h2⟩
    exact hne ((existing_tt y hy h1.symm).symm.trans h2.symm)
  · intro d hd
    rcases mem_old_symlinks.mp hd with ⟨hdD, ⟨y, hy, g1, g2⟩⟩
    constructor
    · rintro ⟨rfl, htt⟩
      exact hne (htt.symm.trans (desired_tt d hdD rfl))
    · rintro ⟨rfl, htt⟩
      exact hne ((existing_tt y hy g1.symm).symm.trans (g2.symm.trans htt))

/-- Witness for C9: the spec's end-to-end target change `file3s`:
existing `file3s -> file3t`, desired `file3s -> file0t`. -/
theorem target_change_is_delete_create_witness :
    SymlinkDescription.mk "file3s" (SymbolicTarget.mk "file3t" none) ∈
      ((FileState.new [("file3s", SymbolicTarget.mk "file0t" none)] []
        [("file3s", "file3t")] [] "cache").deleted_files).1 ∧
    SymlinkDescription.mk "file3s" (SymbolicTarget.mk "file0t" none) ∈
      ((FileState.new [("file3s", SymbolicTarget.mk "file0t" none)] []
        [("file3s", "file3t")] [] "cache").new_files).1 := by
  have h := target_change_is_delete_create
    [("file3s", SymbolicTarget.mk "file0t" none)] [] [("file3s", "file3t")] []
    "cache" "file3s" "file3t" (SymbolicTarget.mk "file0t" none)
    (by decide) (by decide) (by decide) (by decide) (by decide)
  exact ⟨h.1, h.2.1⟩
